import Mathlib

/-! httpserver: request handling and access policy.

A shallow embedding of `src/idhandler/idhandler.cpp` and `src/server/server.cpp`.

* C++ `int` is a 32-bit two's-complement integer, modelled as an `Int` in
  `[INT_MIN, INT_MAX]`; the one place where the code path adds one to an `int`
  (the successor used by the interval container to detect touching intervals)
  wraps explicitly.
* `beast::string_view` / `std::string` are lists of characters.
* A C++ exception or an access outside an object ends the call with a `fault`
  instead of a response.
-/

namespace HttpServer

/-! ## Machine integers -/

/-- Smallest value of the C++ type `int`. -/
def INT_MIN : Int := -2147483648

/-- Largest value of the C++ type `int`. -/
def INT_MAX : Int := 2147483647

/-- The values of the C++ type `int`. -/
def is_int (x : Int) : Prop := INT_MIN ≤ x ∧ x ≤ INT_MAX

instance (x : Int) : Decidable (is_int x) := by unfold is_int; infer_instance

/-- Two's-complement wrap of a mathematical integer into the range of `int`. -/
def wrap_int (x : Int) : Int := (x + 2147483648) % 4294967296 - 2147483648

/-! ## boost::icl::interval_set<int>

The container is Boost library code. It is modelled by its documented
behaviour: an `interval_set` keeps its intervals ordered and pairwise disjoint,
and `add` joins the added interval with every stored interval it overlaps or
touches. Only closed intervals occur, because `readIdIntervals` constructs
every interval with `interval_bounds::closed()`. -/

/-- A `discrete_interval<int>` with closed bounds `[lower, upper]`. -/
structure discrete_interval where
  lower : Int
  upper : Int
deriving DecidableEq, Repr

namespace discrete_interval

/-- `construct<discrete_interval<int>>(a, b, interval_bounds::closed())`. -/
def construct (a b : Int) : discrete_interval := ⟨a, b⟩

/-- `icl::is_empty` for closed bounds: the upper bound is below the lower one. -/
def is_empty (x : discrete_interval) : Bool := decide (x.upper < x.lower)

/-- `icl::contains(interval, element)` for closed bounds. -/
def contains (x : discrete_interval) (n : Int) : Bool :=
  decide (x.lower ≤ n) && decide (n ≤ x.upper)

/-- `exclusive_less`: the strict order of the container, all of `l` lies
below all of `r`. -/
def exclusive_less (l r : discrete_interval) : Bool := decide (l.upper < r.lower)

/-- `icl::touches` on discrete intervals: the successor of the last element
of `l` is the first element of `r`. The successor is computed in `int`. -/
def touches (l r : discrete_interval) : Bool := decide (wrap_int (l.upper + 1) = r.lower)

/-- `icl::hull`: the smallest interval that covers both arguments. -/
def hull (l r : discrete_interval) : discrete_interval :=
  ⟨min l.lower r.lower, max l.upper r.upper⟩

end discrete_interval

/-- An `interval_set<int>`: its intervals in container order. -/
abbrev interval_set := List discrete_interval

namespace interval_set

open discrete_interval

/-- Modelled from the spec: `interval_set<int>` is Boost.ICL library code,
declared outside `src/`; the spec calls it "an ordered, non-overlapping
collection of closed integer intervals". Insertion of a non-empty interval
`x`: stored intervals strictly below `x` are kept (joined when they touch
`x`), stored intervals that overlap `x` are replaced by the hull, and `x` is
put before the first stored interval strictly above it (joined when they
touch). -/
def join : interval_set → discrete_interval → interval_set
  | [], x => [x]
  | y :: ys, x =>
    if exclusive_less y x then
      if touches y x then join ys (hull y x) else y :: join ys x
    else if exclusive_less x y then
      if touches x y then hull x y :: ys else x :: y :: ys
    else join ys (hull y x)

/-- Modelled from the spec: `interval_set::add` of Boost.ICL, outside
`src/`. Adding an empty interval changes nothing; a non-empty one is joined
into the collection. -/
def add (s : interval_set) (x : discrete_interval) : interval_set :=
  if is_empty x then s else join s x

/-- Modelled from the spec: `interval_set::find(element)` of Boost.ICL,
outside `src/`. The stored interval that is neither strictly below nor
strictly above the unit interval `[n, n]`, which is the stored interval that
contains `n`; `none` is `end()`. -/
def find (s : interval_set) (n : Int) : Option discrete_interval :=
  List.find? (fun y => !exclusive_less y ⟨n, n⟩ && !exclusive_less ⟨n, n⟩ y) s

end interval_set

/-- Stored intervals are non-empty and have `int` bounds. -/
def interval_ok (x : discrete_interval) : Prop :=
  x.lower ≤ x.upper ∧ is_int x.lower ∧ is_int x.upper

/-- The order of the container: every stored interval ends more than one
below the start of every later one. -/
def separated (s : interval_set) : Prop :=
  List.Pairwise (fun a b => a.upper + 1 < b.lower) s

/-! ## idhandler.cpp -/

/-- `readIdIntervals`: every pair `a b` extracted from the file by
`infile >> a >> b` is added to the set as the closed interval `[a, b]`.
`pairs` are the pairs the extraction loop yields, in file order. -/
def readIdIntervals (intervalSetofSecret : interval_set) (pairs : List (Int × Int)) :
    interval_set :=
  pairs.foldl (fun s p => s.add (discrete_interval.construct p.1 p.2)) intervalSetofSecret

/-- The membership test of `handle_request`:
`intervalSetofSecret.find(n) != intervalSetofSecret.end()`. -/
def policy_contains (intervalSetofSecret : interval_set) (n : Int) : Bool :=
  (intervalSetofSecret.find n).isSome

/-! ## Strings

`beast::string_view` and `std::string` are lists of characters; `size_t` is
64 bits wide. -/

/-- `beast::string_view::npos`, the largest `size_t`. -/
def npos : Nat := 18446744073709551615

/-- `string_view::rfind` for a one-character needle: the index of the last
occurrence of `c`; `none` stands for `npos`. -/
def rfind : List Char → Char → Option Nat
  | [], _ => none
  | x :: xs, c =>
    match rfind xs c with
    | some p => some (p + 1)
    | none => if x = c then some 0 else none

/-- The `size_t` a position denotes. -/
def size_t_of : Option Nat → Nat
  | some p => p
  | none => npos

/-- Whether `s` begins with `needle`. -/
def starts_with : List Char → List Char → Bool
  | _, [] => true
  | [], _ :: _ => false
  | x :: xs, y :: ys => x == y && starts_with xs ys

/-- `string_view::find`: the index of the first occurrence of `needle` in
`s`; `none` stands for `npos`. -/
def find : List Char → List Char → Option Nat
  | [], needle => if needle = [] then some 0 else none
  | x :: xs, needle =>
    if starts_with (x :: xs) needle then some 0
    else (find xs needle).map (· + 1)

/-- `beast::iequals`: equality of two strings up to ASCII letter case. -/
def iequals (lhs rhs : List Char) : Bool :=
  lhs.map Char.toLower == rhs.map Char.toLower

/-! ## Faults -/

/-- The ways a call can end without a response. -/
inductive fault where
  /-- `string_view::operator[]` applied to `index` on a view of `size`
  characters with `index ≥ size`: undefined behaviour. -/
  | out_of_bounds (index size : Nat)
  /-- `std::invalid_argument` thrown by `std::stoi`: no conversion. -/
  | invalid_argument
  /-- `std::out_of_range` thrown by `std::stoi`: the value is no `int`. -/
  | out_of_range
deriving DecidableEq, Repr

/-- The result of a call: a value, or the fault that ended it. -/
inductive result (α : Type) where
  | value (a : α)
  | faulted (f : fault)
deriving DecidableEq, Repr

/-! ## server.cpp: mime_type, path_cat -/

/-- The extension table of `mime_type`, in the order of its `if` chain. -/
def mime_table : List (List Char × List Char) :=
  [ (".png".toList, "image/png".toList),
    (".jpe".toList, "image/jpeg".toList),
    (".jpeg".toList, "image/jpeg".toList),
    (".jpg".toList, "image/jpeg".toList),
    (".gif".toList, "image/gif".toList),
    (".bmp".toList, "image/bmp".toList),
    (".ico".toList, "image/vnd.microsoft.icon".toList),
    (".tiff".toList, "image/tiff".toList),
    (".tif".toList, "image/tiff".toList),
    (".svg".toList, "image/svg+xml".toList),
    (".svgz".toList, "image/svg+xml".toList) ]

/-- The `ext` lambda of `mime_type`: the part of `path` from its last dot on,
empty when `path` has no dot. -/
def mime_type_ext (path : List Char) : List Char :=
  match rfind path '.' with
  | none => []
  | some dotpos => path.drop dotpos

/-- The `if (iequals(ext, ...)) return ...;` chain of `mime_type` with its
final `return "bad"`. -/
def mime_lookup (ext : List Char) : List Char :=
  match mime_table.find? (fun e => iequals ext e.1) with
  | some e => e.2
  | none => "bad".toList

/-- `mime_type`. The test `pos > 6 && path[pos - 1] == '/'` reads the
character at index `pos - 1` whenever `pos > 6`, and `pos` is `npos` when
`path` has no dot. -/
def mime_type (path : List Char) : result (List Char) :=
  let pos := size_t_of (rfind path '.')
  let ext := mime_type_ext path
  if pos > 6 then
    match path.get? (pos - 1) with
    | none => .faulted (.out_of_bounds (pos - 1) path.length)
    | some c => if c = '/' then .value "bad".toList else .value (mime_lookup ext)
  else .value (mime_lookup ext)

/-- `path_cat`: `base` without one trailing `/`, followed by `path`. -/
def path_cat (base path : List Char) : List Char :=
  if base = [] then path
  else (if base.getLast? = some '/' then base.dropLast else base) ++ path

/-! ## server.cpp: std::stoi -/

/-- `isspace` in the C locale. -/
def isspace (c : Char) : Bool :=
  c = ' ' || c = '\t' || c = '\n' || c = Char.ofNat 11 || c = Char.ofNat 12 || c = '\r'

/-- The value of a decimal digit character. -/
def digit_value (c : Char) : Nat := c.toNat - '0'.toNat

/-- `std::stoi(str)` (base 10, through `strtol`): leading white space is
skipped, one sign is accepted, the longest run of digits is converted and
what follows it is ignored. No digit raises `std::invalid_argument`; a value
that is no `int` raises `std::out_of_range`. -/
def stoi (str : List Char) : result Int :=
  let s := str.dropWhile isspace
  let signed : Bool × List Char :=
    match s with
    | '-' :: r => (true, r)
    | '+' :: r => (false, r)
    | _ => (false, s)
  let digits := signed.2.takeWhile Char.isDigit
  if digits = [] then .faulted .invalid_argument
  else
    let magnitude : Nat := digits.foldl (fun acc c => acc * 10 + digit_value c) 0
    let n : Int := if signed.1 then -(magnitude : Int) else (magnitude : Int)
    if INT_MIN ≤ n ∧ n ≤ INT_MAX then .value n else .faulted .out_of_range

/-! ## server.cpp: requests and responses -/

/-- `http::verb`: the request methods the parser knows; `other` stands for
the remaining members of the enumeration. -/
inductive verb where
  | unknown | delete_ | get | head | post | put | connect | options | trace
  | other (code : Nat)
deriving DecidableEq, Repr

/-- `http::status` values that `handle_request` uses. -/
inductive status where
  | ok | bad_request | unauthorized | not_found | internal_server_error
deriving DecidableEq, Repr

/-- The numeric status code. -/
def status.code : status → Nat
  | .ok => 200
  | .bad_request => 400
  | .unauthorized => 401
  | .not_found => 404
  | .internal_server_error => 500

/-- A parsed `http::request`: method, target, header fields in order, HTTP
version, and the value of `req.keep_alive()`. -/
structure request where
  method : verb
  target : List Char
  fields : List (List Char × List Char)
  version : Nat
  keep_alive : Bool
deriving DecidableEq, Repr

/-- `req[name]`: the value of the first field whose name matches `name` up
to letter case, the empty string when there is none. -/
def request.at (req : request) (name : List Char) : List Char :=
  match req.fields.find? (fun f => iequals f.1 name) with
  | some f => f.2
  | none => []

/-- The body of a response: a `string_body`, or a `file_body` opened on
`path` with `size` bytes. -/
inductive body_value where
  | string (text : List Char)
  | file (path : List Char) (size : Nat)
deriving DecidableEq, Repr

/-- A `http::response` as `handle_request` leaves it. -/
structure response where
  result : status
  version : Nat
  server : List Char
  content_type : List Char
  content_length : Nat
  keep_alive : Bool
  body : body_value
deriving DecidableEq, Repr

/-- `beast::error_code` after `body.open`. -/
inductive error_code where
  | success
  | no_such_file_or_directory
  | other (message : List Char)
deriving DecidableEq, Repr

/-- What `body.open(path, beast::file_mode::scan, ec)` yields: the error
code and, on success, the size of the file. -/
structure open_result where
  ec : error_code
  size : Nat
deriving DecidableEq, Repr

/-- What `handle_request` takes from outside the program: the library's
version string and the file system as seen by `body.open`. -/
structure environment where
  BOOST_BEAST_VERSION_STRING : List Char
  file_open : List Char → open_result

/-- The observable steps of `handle_request` outside of building responses. -/
inductive event where
  /-- `intervalSetofSecret.find(n)`. -/
  | policy_find (n : Int)
  /-- `body.open(path, ...)`. -/
  | file_open (path : List Char)
deriving DecidableEq, Repr

/-- A run of `handle_request`: the events in order and how the call ended. -/
structure outcome where
  events : List event
  result : result response
deriving DecidableEq, Repr

/-- The `bad_request` lambda. -/
def bad_request (env : environment) (req : request) (why : List Char) : response :=
  { result := .bad_request
    version := req.version
    server := env.BOOST_BEAST_VERSION_STRING
    content_type := "text/html".toList
    content_length := why.length
    keep_alive := req.keep_alive
    body := .string why }

/-- The `unauthorized` lambda. -/
def unauthorized (env : environment) (req : request) (target : List Char) : response :=
  let text := "Unauthorized access attempt to '".toList ++ target ++ "' !!!".toList
  { result := .unauthorized
    version := req.version
    server := env.BOOST_BEAST_VERSION_STRING
    content_type := "text/html".toList
    content_length := text.length
    keep_alive := req.keep_alive
    body := .string text }

/-- The `not_found` lambda. -/
def not_found (env : environment) (req : request) (target : List Char) : response :=
  let text := "The resource '".toList ++ target ++ "' was not found.".toList
  { result := .not_found
    version := req.version
    server := env.BOOST_BEAST_VERSION_STRING
    content_type := "text/html".toList
    content_length := text.length
    keep_alive := req.keep_alive
    body := .string text }

/-- The `server_error` lambda. -/
def server_error (env : environment) (req : request) (what : List Char) : response :=
  let text := "An error occurred: '".toList ++ what ++ "'".toList
  { result := .internal_server_error
    version := req.version
    server := env.BOOST_BEAST_VERSION_STRING
    content_type := "text/html".toList
    content_length := text.length
    keep_alive := req.keep_alive
    body := .string text }

/-- `ec.message()`. -/
def error_code.message : error_code → List Char
  | .success => "Success".toList
  | .no_such_file_or_directory => "No such file or directory".toList
  | .other message => message

/-- The target-shape test of `handle_request` (the condition of its second
`if`), given the string `mime_type` returned. -/
def illegal_target (target mime_type_obtained : List Char) : Bool :=
  target.isEmpty ||
  mime_type_obtained == "bad".toList ||
  target.take 7 != "/image/".toList ||
  (find target "..".toList).isSome

/-- `handle_request`. -/
def handle_request (env : environment) (doc_root : List Char)
    (intervalSetofSecret : interval_set) (req : request) : outcome :=
  if req.method ≠ verb.get then
    ⟨[], .value (bad_request env req "Unknown HTTP-method".toList)⟩
  else
    let path := path_cat doc_root req.target
    match mime_type req.target with
    | .faulted f => ⟨[], .faulted f⟩
    | .value mime_type_obtained =>
      if illegal_target req.target mime_type_obtained then
        ⟨[], .value (bad_request env req "Illegal request-target".toList)⟩
      else
        let secretfield := req.at "secret".toList
        if !secretfield.isEmpty then
          match stoi secretfield with
          | .faulted f => ⟨[], .faulted f⟩
          | .value secretNumber =>
            if (intervalSetofSecret.find secretNumber).isNone then
              ⟨[.policy_find secretNumber], .value (unauthorized env req req.target)⟩
            else
              let opened := env.file_open path
              let events := [event.policy_find secretNumber, event.file_open path]
              if opened.ec = .no_such_file_or_directory then
                ⟨events, .value (not_found env req req.target)⟩
              else if opened.ec ≠ .success then
                ⟨events, .value (server_error env req opened.ec.message)⟩
              else
                ⟨events, .value
                  { result := .ok
                    version := req.version
                    server := env.BOOST_BEAST_VERSION_STRING
                    content_type := mime_type_obtained
                    content_length := opened.size
                    keep_alive := req.keep_alive
                    body := .file path opened.size }⟩
        else
          ⟨[], .value (bad_request env req "Secret value not provided!!!".toList)⟩

/-! ## server.cpp: session -/

/-- The error code an asynchronous operation completes with. -/
inductive io_status where
  | success
  /-- `http::error::end_of_stream`: the peer closed the connection. -/
  | end_of_stream
  /-- Any other error, the expiry of the 30 second timeout included. -/
  | error (message : List Char)
deriving DecidableEq, Repr

/-- Where a session stands between two handlers. -/
inductive session_state where
  /-- `do_read` started `http::async_read`; `on_read` is pending. -/
  | reading
  /-- `send_response` started `beast::async_write`; `on_write` is pending and
  bound to `keep_alive`. -/
  | writing (keep_alive : Bool)
  /-- `do_close` ran; no operation is pending. -/
  | closed
  /-- `fail` ran; no operation is pending. -/
  | failed
  /-- `handle_request` ended with a fault inside `on_read`. -/
  | aborted (f : fault)
deriving DecidableEq, Repr

/-- What a handler does to the connection. -/
inductive action where
  /-- `http::async_read(stream_, buffer_, req_, ...)` in `do_read`. -/
  | async_read
  /-- `beast::async_write(stream_, msg, ...)` in `send_response`. -/
  | async_write (msg : response)
  /-- `stream_.socket().shutdown(tcp::socket::shutdown_send, ec)` in `do_close`. -/
  | shutdown_send
  /-- `fail(ec, what)`. -/
  | fail (what : List Char)
deriving DecidableEq, Repr

/-- The completion of the pending operation, as the I/O layer reports it. -/
inductive completion where
  /-- The read completed with `ec`; on success `req` is the parsed request. -/
  | read (ec : io_status) (req : request)
  /-- The write completed with `ec`. -/
  | write (ec : io_status)
deriving DecidableEq, Repr

/-- `session::do_read`. -/
def do_read : session_state × List action := (.reading, [.async_read])

/-- `session::do_close`. -/
def do_close : session_state × List action := (.closed, [.shutdown_send])

/-- `session::send_response`. -/
def send_response (msg : response) : session_state × List action :=
  (.writing msg.keep_alive, [.async_write msg])

/-- `session::on_read`. -/
def on_read (env : environment) (doc_root : List Char) (intervalSetofSecret : interval_set)
    (ec : io_status) (req : request) : session_state × List action :=
  if ec = .end_of_stream then do_close
  else if ec ≠ .success then (.failed, [.fail "read".toList])
  else
    match (handle_request env doc_root intervalSetofSecret req).result with
    | .value msg => send_response msg
    | .faulted f => (.aborted f, [])

/-- `session::on_write`. -/
def on_write (keep_alive : Bool) (ec : io_status) : session_state × List action :=
  if ec ≠ .success then (.failed, [.fail "write".toList])
  else if !keep_alive then do_close
  else do_read

/-- One completion delivered to a session: the handler bound to the pending
operation runs; a session without that pending operation has no handler to
run. -/
def session_step (env : environment) (doc_root : List Char)
    (intervalSetofSecret : interval_set) :
    session_state → completion → session_state × List action
  | .reading, .read ec req => on_read env doc_root intervalSetofSecret ec req
  | .writing keep_alive, .write ec => on_write keep_alive ec
  | s, _ => (s, [])

/-- The actions of a session over a sequence of completions, in order. -/
def session_run (env : environment) (doc_root : List Char)
    (intervalSetofSecret : interval_set) :
    session_state → List completion → List action
  | _, [] => []
  | s, c :: cs =>
    (session_step env doc_root intervalSetofSecret s c).2 ++
      session_run env doc_root intervalSetofSecret
        (session_step env doc_root intervalSetofSecret s c).1 cs

/-! ## Vocabulary of the claims -/

/-- The natural number that a string of decimal digits denotes. -/
def numeral_value : List Char → Nat
  | [] => 0
  | c :: cs => digit_value c * 10 ^ cs.length + numeral_value cs

/-- A non-empty string of decimal digits. -/
def is_numeral (ds : List Char) : Prop := ds ≠ [] ∧ ∀ c ∈ ds, c.isDigit = true

instance (ds : List Char) : Decidable (is_numeral ds) := by
  unfold is_numeral; infer_instance

/-- The string `s` is a base-10 representation of the integer `n`: a
numeral, with a leading `-` for the negated value. -/
def is_decimal_of (s : List Char) (n : Int) : Prop :=
  (is_numeral s ∧ n = (numeral_value s : Int)) ∨
  (s.head? = some '-' ∧ is_numeral s.tail ∧ n = -(numeral_value s.tail : Int))

instance (s : List Char) (n : Int) : Decidable (is_decimal_of s n) := by
  unfold is_decimal_of; infer_instance

/-- The last `e.length` characters of the target are `e`, letter case
apart. -/
def ends_in (target e : List Char) : Bool :=
  iequals (target.drop (target.length - e.length)) e

/-- The target ends in an extension of the MIME table. -/
def ends_in_table_extension (target : List Char) : Prop :=
  ∃ e ∈ mime_table, ends_in target e.1 = true

instance (target : List Char) : Decidable (ends_in_table_extension target) := by
  unfold ends_in_table_extension; infer_instance

/-- A valid target in the words of the claims: it begins with `/image/`,
contains no `..` and ends in a supported extension. -/
def valid_target (target : List Char) : Prop :=
  "/image/".toList <+: target ∧ ¬("..".toList <:+: target) ∧ ends_in_table_extension target

instance (target : List Char) : Decidable (valid_target target) := by
  unfold valid_target; infer_instance

/-- The file of the target has a name: the last dot of the target does not
directly follow a `/`. -/
def has_file_name (target : List Char) : Prop :=
  match rfind target '.' with
  | some p => target.get? (p - 1) ≠ some '/'
  | none => True

instance (target : List Char) : Decidable (has_file_name target) := by
  unfold has_file_name; split <;> infer_instance

/-- The target passes the target test of `handle_request`: `mime_type`
returns and the condition of the second `if` is false. -/
def target_accepted (target : List Char) : Prop :=
  ∃ m, mime_type target = .value m ∧ illegal_target target m = false

/-! ## Concrete inputs -/

/-- A file system with one image of 1024 bytes and one unreadable file
below the document root `/srv/images`. -/
def example_environment : environment :=
  { BOOST_BEAST_VERSION_STRING := "Boost.Beast".toList
    file_open := fun path =>
      if path = "/srv/images/image/photo.png".toList then ⟨.success, 1024⟩
      else if path = "/srv/images/image/locked.png".toList then
        ⟨.other "Permission denied".toList, 0⟩
      else ⟨.no_such_file_or_directory, 0⟩ }

/-- The document root of the examples. -/
def example_root : List Char := "/srv/images/".toList

/-- The policy loaded from the lines `5 10` and `15 20`. -/
def example_policy : interval_set := readIdIntervals [] [(5, 10), (15, 20)]

/-- A HTTP/1.1 keep-alive request with the given method and target and one
`secret` field. -/
def example_request (method : verb) (target secret : String) : request :=
  { method := method
    target := target.toList
    fields := [("secret".toList, secret.toList)]
    version := 11
    keep_alive := true }

/-- A HTTP/1.1 keep-alive request without a `secret` field. -/
def example_request_no_secret (method : verb) (target : String) : request :=
  { method := method
    target := target.toList
    fields := [("Host".toList, "localhost".toList)]
    version := 11
    keep_alive := true }

/-! ## Theorems -/

section interval_lemmas

open discrete_interval interval_set

theorem wrap_int_of_is_int (x : Int) (h : is_int x) : wrap_int x = x := by
  unfold is_int INT_MIN INT_MAX at h
  unfold wrap_int
  omega

theorem hull_ok (a b : discrete_interval) (ha : interval_ok a) (hb : interval_ok b) :
    interval_ok (hull a b) := by
  unfold interval_ok is_int hull at *
  simp only
  omega

theorem contains_iff (x : discrete_interval) (n : Int) :
    x.contains n = true ↔ x.lower ≤ n ∧ n ≤ x.upper := by
  simp [discrete_interval.contains]

theorem contains_hull (a b : discrete_interval) (n : Int)
    (h1 : b.lower ≤ a.upper + 1) (h2 : a.lower ≤ b.upper + 1) :
    (hull a b).contains n = true ↔ a.contains n = true ∨ b.contains n = true := by
  simp only [contains_iff, hull]
  omega

theorem join_ok (s : interval_set) (x : discrete_interval)
    (hs : ∀ y ∈ s, interval_ok y) (hx : interval_ok x) :
    ∀ y ∈ join s x, interval_ok y := by
  induction s generalizing x with
  | nil => intro y hy; simp [join] at hy; subst hy; exact hx
  | cons z zs ih =>
    have hz : interval_ok z := hs z (List.mem_cons_self _ _)
    have hzs : ∀ y ∈ zs, interval_ok y := fun y hy => hs y (List.mem_cons_of_mem _ hy)
    unfold join
    split_ifs
    · exact ih _ hzs (hull_ok _ _ hz hx)
    · intro y hy
      rcases List.mem_cons.mp hy with rfl | hy
      · exact hz
      · exact ih _ hzs hx y hy
    · intro y hy
      rcases List.mem_cons.mp hy with rfl | hy
      · exact hull_ok _ _ hx hz
      · exact hzs y hy
    · intro y hy
      rcases List.mem_cons.mp hy with rfl | hy
      · exact hx
      · exact hs y hy
    · exact ih _ hzs (hull_ok _ _ hz hx)

theorem join_contains (s : interval_set) (x : discrete_interval) (n : Int)
    (hs : ∀ y ∈ s, interval_ok y) (hx : interval_ok x) :
    (∃ y ∈ join s x, y.contains n = true) ↔
      (∃ y ∈ s, y.contains n = true) ∨ x.contains n = true := by
  induction s generalizing x with
  | nil => simp [join]
  | cons z zs ih =>
    have hz : interval_ok z := hs z (List.mem_cons_self _ _)
    have hzs : ∀ y ∈ zs, interval_ok y := fun y hy => hs y (List.mem_cons_of_mem _ hy)
    unfold join
    split_ifs with h1 h2 h3 h4
    · -- z below x and touching
      have ht : z.upper + 1 = x.lower := by
        simp only [touches, decide_eq_true_eq] at h2
        simp only [exclusive_less, decide_eq_true_eq] at h1
        rw [wrap_int_of_is_int] at h2
        · exact h2
        · have := hz.2.2; have := hx.2.1
          unfold is_int INT_MIN INT_MAX at *
          omega
      rw [ih _ hzs (hull_ok _ _ hz hx),
        contains_hull z x n (by omega) (by have := hz.1; have := hx.1; omega)]
      simp only [List.exists_mem_cons_iff]
      generalize (∃ y ∈ zs, y.contains n = true) = P
      tauto
    · rw [List.exists_mem_cons_iff, ih _ hzs hx, List.exists_mem_cons_iff]
      generalize (∃ y ∈ zs, y.contains n = true) = P
      tauto
    · -- x below z and touching
      have ht : x.upper + 1 = z.lower := by
        simp only [touches, decide_eq_true_eq] at h4
        simp only [exclusive_less, decide_eq_true_eq] at h3
        rw [wrap_int_of_is_int] at h4
        · exact h4
        · have := hx.2.2; have := hz.2.1
          unfold is_int INT_MIN INT_MAX at *
          omega
      rw [List.exists_mem_cons_iff,
        contains_hull x z n (by omega) (by have := hz.1; have := hx.1; omega)]
      simp only [List.exists_mem_cons_iff]
      generalize (∃ y ∈ zs, y.contains n = true) = P
      tauto
    · simp only [List.exists_mem_cons_iff]
      generalize (∃ y ∈ zs, y.contains n = true) = P
      tauto
    · -- overlap
      simp only [exclusive_less, decide_eq_true_eq, not_lt] at h1 h3
      rw [ih _ hzs (hull_ok _ _ hz hx),
        contains_hull z x n (by omega) (by omega)]
      simp only [List.exists_mem_cons_iff]
      generalize (∃ y ∈ zs, y.contains n = true) = P
      tauto

theorem add_ok (s : interval_set) (a b : Int)
    (hs : ∀ y ∈ s, interval_ok y) (ha : is_int a) (hb : is_int b) :
    ∀ y ∈ s.add (construct a b), interval_ok y := by
  unfold interval_set.add
  split_ifs with h
  · exact hs
  · simp only [is_empty, construct, decide_eq_true_eq, not_lt] at h
    exact join_ok s _ hs ⟨h, ha, hb⟩

theorem add_contains (s : interval_set) (a b n : Int)
    (hs : ∀ y ∈ s, interval_ok y) (ha : is_int a) (hb : is_int b) :
    (∃ y ∈ s.add (construct a b), y.contains n = true) ↔
      (∃ y ∈ s, y.contains n = true) ∨ (a ≤ n ∧ n ≤ b) := by
  unfold interval_set.add
  split_ifs with h
  · simp only [is_empty, construct, decide_eq_true_eq] at h
    constructor
    · exact Or.inl
    · rintro (h1 | h1)
      · exact h1
      · omega
  · simp only [is_empty, construct, decide_eq_true_eq, not_lt] at h
    rw [join_contains s _ n hs ⟨h, ha, hb⟩, contains_iff]
    simp only [construct]

theorem policy_contains_iff (s : interval_set) (n : Int) :
    policy_contains s n = true ↔ ∃ y ∈ s, y.contains n = true := by
  unfold policy_contains interval_set.find
  rw [List.find?_isSome]
  simp only [exclusive_less, discrete_interval.contains, Bool.and_eq_true, Bool.not_eq_true',
    decide_eq_false_iff_not, decide_eq_true_eq, not_lt]
  constructor
  · rintro ⟨y, hy, h1, h2⟩
    exact ⟨y, hy, h2, h1⟩
  · rintro ⟨y, hy, h1, h2⟩
    exact ⟨y, hy, h2, h1⟩

theorem readIdIntervals_contains (pairs : List (Int × Int)) (s : interval_set) (n : Int)
    (hs : ∀ y ∈ s, interval_ok y) (hp : ∀ p ∈ pairs, is_int p.1 ∧ is_int p.2) :
    (∀ y ∈ readIdIntervals s pairs, interval_ok y) ∧
    ((∃ y ∈ readIdIntervals s pairs, y.contains n = true) ↔
      (∃ y ∈ s, y.contains n = true) ∨ ∃ p ∈ pairs, p.1 ≤ n ∧ n ≤ p.2) := by
  induction pairs generalizing s with
  | nil => simpa [readIdIntervals] using hs
  | cons p ps ih =>
    have hp1 := hp p (List.mem_cons_self _ _)
    have hps : ∀ q ∈ ps, is_int q.1 ∧ is_int q.2 :=
      fun q hq => hp q (List.mem_cons_of_mem _ hq)
    have hok := add_ok s p.1 p.2 hs hp1.1 hp1.2
    have step := ih (s.add (construct p.1 p.2)) hok hps
    have unfold_eq : readIdIntervals s (p :: ps)
        = readIdIntervals (s.add (construct p.1 p.2)) ps := rfl
    rw [unfold_eq]
    refine ⟨step.1, ?_⟩
    rw [step.2, add_contains s p.1 p.2 n hs hp1.1 hp1.2, List.exists_mem_cons_iff]
    exact or_assoc

theorem touches_iff (a b : discrete_interval) (ha : interval_ok a) (hb : interval_ok b)
    (h : a.upper < b.lower) : touches a b = true ↔ a.upper + 1 = b.lower := by
  have h1 := ha.2.2
  have h2 := hb.2.1
  have hw : wrap_int (a.upper + 1) = a.upper + 1 := by
    apply wrap_int_of_is_int
    unfold is_int INT_MIN INT_MAX at *
    omega
  simp only [touches, decide_eq_true_eq, hw]

theorem join_lower_bound (s : interval_set) (x : discrete_interval) (c : Int)
    (hs : ∀ y ∈ s, c < y.lower) (hx : c < x.lower) :
    ∀ y ∈ join s x, c < y.lower := by
  induction s generalizing x with
  | nil => intro y hy; simp [join] at hy; subst hy; exact hx
  | cons z zs ih =>
    have hz : c < z.lower := hs z (List.mem_cons_self _ _)
    have hzs : ∀ y ∈ zs, c < y.lower := fun y hy => hs y (List.mem_cons_of_mem _ hy)
    have hh : c < (hull z x).lower := by simp only [hull]; omega
    have hh2 : c < (hull x z).lower := by simp only [hull]; omega
    unfold join
    split_ifs
    · exact ih _ hzs hh
    · intro y hy
      rcases List.mem_cons.mp hy with rfl | hy
      · exact hz
      · exact ih _ hzs hx y hy
    · intro y hy
      rcases List.mem_cons.mp hy with rfl | hy
      · exact hh2
      · exact hzs y hy
    · intro y hy
      rcases List.mem_cons.mp hy with rfl | hy
      · exact hx
      · exact hs y hy
    · exact ih _ hzs hh

theorem join_separated (s : interval_set) (x : discrete_interval)
    (hs : ∀ y ∈ s, interval_ok y) (hx : interval_ok x) (hsep : separated s) :
    separated (join s x) := by
  induction s generalizing x with
  | nil => simp [join, separated]
  | cons z zs ih =>
    have hz : interval_ok z := hs z (List.mem_cons_self _ _)
    have hzs : ∀ y ∈ zs, interval_ok y := fun y hy => hs y (List.mem_cons_of_mem _ hy)
    unfold separated at hsep
    rw [List.pairwise_cons] at hsep
    obtain ⟨hzall, hsepzs⟩ := hsep
    have hz1 := hz.1
    have hx1 := hx.1
    unfold join
    split_ifs with h1 h2 h3 h4
    · exact ih _ hzs (hull_ok _ _ hz hx) hsepzs
    · have hlt : z.upper < x.lower := by simpa [exclusive_less] using h1
      rw [touches_iff z x hz hx hlt] at h2
      unfold separated
      rw [List.pairwise_cons]
      refine ⟨?_, ih _ hzs hx hsepzs⟩
      exact join_lower_bound zs x (z.upper + 1) hzall (by omega)
    · have hlt : x.upper < z.lower := by simpa [exclusive_less] using h3
      unfold separated
      rw [List.pairwise_cons]
      refine ⟨?_, hsepzs⟩
      intro b hb
      have := hzall b hb
      simp only [hull]
      omega
    · have hlt : x.upper < z.lower := by simpa [exclusive_less] using h3
      rw [touches_iff x z hx hz hlt] at h4
      unfold separated
      rw [List.pairwise_cons, List.pairwise_cons]
      refine ⟨?_, hzall, hsepzs⟩
      intro b hb
      rcases List.mem_cons.mp hb with rfl | hb
      · omega
      · have := hzall b hb
        omega
    · exact ih _ hzs (hull_ok _ _ hz hx) hsepzs

/-- The container invariant: after `readIdIntervals` every stored interval
is non-empty with `int` bounds, and each stored interval ends more than one
below the start of every later one (ordered, disjoint, not touching). -/
theorem readIdIntervals_separated (pairs : List (Int × Int)) (s : interval_set)
    (hs : ∀ y ∈ s, interval_ok y) (hsep : separated s)
    (hp : ∀ p ∈ pairs, is_int p.1 ∧ is_int p.2) :
    separated (readIdIntervals s pairs) := by
  induction pairs generalizing s with
  | nil => simpa [readIdIntervals] using hsep
  | cons p ps ih =>
    have hp1 := hp p (List.mem_cons_self _ _)
    have hps : ∀ q ∈ ps, is_int q.1 ∧ is_int q.2 :=
      fun q hq => hp q (List.mem_cons_of_mem _ hq)
    have unfold_eq : readIdIntervals s (p :: ps)
        = readIdIntervals (s.add (construct p.1 p.2)) ps := rfl
    rw [unfold_eq]
    apply ih _ (add_ok s p.1 p.2 hs hp1.1 hp1.2) _ hps
    unfold interval_set.add
    split_ifs with h
    · exact hsep
    · simp only [is_empty, construct, decide_eq_true_eq, not_lt] at h
      exact join_separated s _ hs ⟨h, hp1.1, hp1.2⟩ hsep

end interval_lemmas

section handle_request_paths

variable (env : environment) (doc_root : List Char) (intervalSetofSecret : interval_set)
  (req : request)

theorem handle_request_of_method (h : req.method ≠ verb.get) :
    handle_request env doc_root intervalSetofSecret req =
      ⟨[], .value (bad_request env req "Unknown HTTP-method".toList)⟩ := by
  unfold handle_request
  rw [if_pos h]

theorem handle_request_of_mime_fault (f : fault) (h : req.method = verb.get)
    (hm : mime_type req.target = .faulted f) :
    handle_request env doc_root intervalSetofSecret req = ⟨[], .faulted f⟩ := by
  unfold handle_request
  simp [h, hm]

theorem handle_request_of_illegal (m : List Char) (h : req.method = verb.get)
    (hm : mime_type req.target = .value m) (hi : illegal_target req.target m = true) :
    handle_request env doc_root intervalSetofSecret req =
      ⟨[], .value (bad_request env req "Illegal request-target".toList)⟩ := by
  unfold handle_request
  simp [h, hm, hi]

theorem handle_request_of_no_secret (m : List Char) (h : req.method = verb.get)
    (hm : mime_type req.target = .value m) (hi : illegal_target req.target m = false)
    (hs : req.at "secret".toList = []) :
    handle_request env doc_root intervalSetofSecret req =
      ⟨[], .value (bad_request env req "Secret value not provided!!!".toList)⟩ := by
  unfold handle_request
  generalize req.at "secret".toList = secretfield at hs ⊢
  simp [h, hm, hi, hs]

theorem handle_request_of_stoi_fault (m : List Char) (f : fault) (h : req.method = verb.get)
    (hm : mime_type req.target = .value m) (hi : illegal_target req.target m = false)
    (hs : req.at "secret".toList ≠ [])
    (hn : stoi (req.at "secret".toList) = .faulted f) :
    handle_request env doc_root intervalSetofSecret req = ⟨[], .faulted f⟩ := by
  unfold handle_request
  generalize req.at "secret".toList = secretfield at hs hn ⊢
  simp [h, hm, hi, hs, hn]

theorem handle_request_of_unauthorized (m : List Char) (n : Int) (h : req.method = verb.get)
    (hm : mime_type req.target = .value m) (hi : illegal_target req.target m = false)
    (hs : req.at "secret".toList ≠ [])
    (hn : stoi (req.at "secret".toList) = .value n)
    (hp : policy_contains intervalSetofSecret n = false) :
    handle_request env doc_root intervalSetofSecret req =
      ⟨[.policy_find n], .value (unauthorized env req req.target)⟩ := by
  have hp2 : intervalSetofSecret.find n = none := by
    unfold policy_contains at hp
    cases hf : intervalSetofSecret.find n with
    | none => rfl
    | some y => rw [hf] at hp; cases hp
  unfold handle_request
  generalize req.at "secret".toList = secretfield at hs hn ⊢
  simp [h, hm, hi, hs, hn, hp2]

theorem handle_request_of_authorized (m : List Char) (n : Int) (h : req.method = verb.get)
    (hm : mime_type req.target = .value m) (hi : illegal_target req.target m = false)
    (hs : req.at "secret".toList ≠ [])
    (hn : stoi (req.at "secret".toList) = .value n)
    (hp : policy_contains intervalSetofSecret n = true) :
    handle_request env doc_root intervalSetofSecret req =
      ⟨[.policy_find n, .file_open (path_cat doc_root req.target)],
        if (env.file_open (path_cat doc_root req.target)).ec = .no_such_file_or_directory then
          .value (not_found env req req.target)
        else if (env.file_open (path_cat doc_root req.target)).ec ≠ .success then
          .value (server_error env req (env.file_open (path_cat doc_root req.target)).ec.message)
        else
          .value
            { result := .ok
              version := req.version
              server := env.BOOST_BEAST_VERSION_STRING
              content_type := m
              content_length := (env.file_open (path_cat doc_root req.target)).size
              keep_alive := req.keep_alive
              body := .file (path_cat doc_root req.target)
                (env.file_open (path_cat doc_root req.target)).size }⟩ := by
  have hp2 : intervalSetofSecret.find n ≠ none := by
    unfold policy_contains at hp
    intro hc
    rw [hc] at hp
    cases hp
  unfold handle_request
  dsimp only
  generalize req.at "secret".toList = secretfield at hs hn ⊢
  generalize env.file_open (path_cat doc_root req.target) = opened
  simp only [h, hm, hi, hn]
  simp [hs, hp2]
  split_ifs <;> simp_all

end handle_request_paths

section string_lemmas

theorem rfind_lt (s : List Char) (c : Char) (p : Nat) (h : rfind s c = some p) :
    p < s.length := by
  induction s generalizing p with
  | nil => simp [rfind] at h
  | cons x xs ih =>
    unfold rfind at h
    cases hr : rfind xs c with
    | some q =>
      rw [hr] at h
      simp only [Option.some.injEq] at h
      have := ih q hr
      simp only [List.length_cons]
      omega
    | none =>
      rw [hr] at h
      simp only at h
      split_ifs at h
      simp only [Option.some.injEq] at h
      simp only [List.length_cons]
      omega

theorem starts_with_iff_take (s needle : List Char) :
    starts_with s needle = true ↔ s.take needle.length = needle := by
  induction needle generalizing s with
  | nil => simp [starts_with]
  | cons y ys ih =>
    cases s with
    | nil => simp [starts_with]
    | cons x xs =>
      simp only [starts_with, Bool.and_eq_true, beq_iff_eq, List.length_cons, List.take_succ_cons,
        List.cons.injEq, ih]

theorem mime_type_of_dot (path : List Char) (p : Nat) (h : rfind path '.' = some p) :
    mime_type path = .value (mime_lookup (path.drop p)) ∨
    mime_type path = .value "bad".toList := by
  have hlt := rfind_lt path '.' p h
  unfold mime_type mime_type_ext
  simp only [h, size_t_of]
  split_ifs with h6
  · have hget : path.get? (p - 1) = some (path.get ⟨p - 1, by omega⟩) :=
      List.get?_eq_get (by omega)
    rw [hget]
    simp only
    split_ifs
    · exact Or.inr rfl
    · exact Or.inl rfl
  · exact Or.inl rfl

theorem mime_lookup_ne_bad (ext : List Char) (h : mime_lookup ext ≠ "bad".toList) :
    ∃ e ∈ mime_table, iequals ext e.1 = true := by
  unfold mime_lookup at h
  cases hf : mime_table.find? (fun e => iequals ext e.1) with
  | none => rw [hf] at h; exact absurd rfl h
  | some e =>
    exact ⟨e, List.mem_of_find?_eq_some hf, by simpa using List.find?_some hf⟩

theorem mime_type_no_fault_of_dot (path : List Char) (h : (rfind path '.').isSome = true) :
    ∃ m, mime_type path = .value m := by
  obtain ⟨p, hp⟩ := Option.isSome_iff_exists.mp h
  rcases mime_type_of_dot path p hp with h1 | h1
  · exact ⟨_, h1⟩
  · exact ⟨_, h1⟩

theorem mime_type_dot_of_value (path m : List Char) (h : mime_type path = .value m)
    (hlen : path.length < npos) : (rfind path '.').isSome = true := by
  cases hr : rfind path '.' with
  | some p => rfl
  | none =>
    exfalso
    unfold mime_type at h
    simp only [hr, size_t_of, npos] at h
    have hget : path.get? (18446744073709551615 - 1) = none := by
      apply List.get?_eq_none.mpr
      unfold npos at hlen
      omega
    rw [hget] at h
    simp at h

theorem starts_with_iff (s needle : List Char) :
    starts_with s needle = true ↔ needle <+: s := by
  rw [starts_with_iff_take, List.prefix_iff_eq_take]
  exact eq_comm

theorem find_isSome_iff (s needle : List Char) :
    (find s needle).isSome = true ↔ needle <:+: s := by
  induction s with
  | nil =>
    unfold find
    rw [List.infix_nil]
    split_ifs with h <;> simp [h]
  | cons x xs ih =>
    unfold find
    rw [List.infix_cons_iff, ← ih, ← starts_with_iff]
    split_ifs with h
    · simp [h]
    · simp [h]

theorem illegal_target_eq_false (target m : List Char) :
    illegal_target target m = false ↔
      target ≠ [] ∧ m ≠ "bad".toList ∧ starts_with target "/image/".toList = true ∧
        find target "..".toList = none := by
  have h7 : ("/image/".toList).length = 7 := rfl
  unfold illegal_target
  rw [starts_with_iff_take, h7]
  cases hf : find target "..".toList <;> cases target <;> simp

theorem foldl_digits (ds : List Char) (acc : Nat) :
    ds.foldl (fun a c => a * 10 + digit_value c) acc
      = acc * 10 ^ ds.length + numeral_value ds := by
  induction ds generalizing acc with
  | nil => simp [numeral_value]
  | cons c cs ih =>
    simp only [List.foldl_cons, ih, numeral_value, List.length_cons, pow_succ]
    ring

theorem takeWhile_all (p : Char → Bool) (ds : List Char) (h : ∀ c ∈ ds, p c = true) :
    ds.takeWhile p = ds := by
  induction ds with
  | nil => rfl
  | cons c cs ih =>
    have hc := h c (List.mem_cons_self _ _)
    simp only [List.takeWhile_cons, hc, if_true]
    rw [ih (fun d hd => h d (List.mem_cons_of_mem _ hd))]

theorem isDigit_bounds (c : Char) (h : c.isDigit = true) : 48 ≤ c.toNat ∧ c.toNat ≤ 57 := by
  simp only [Char.isDigit, Bool.and_eq_true, decide_eq_true_eq] at h
  have h1 : (48 : UInt32).toNat ≤ c.val.toNat := h.1
  have h2 : c.val.toNat ≤ (57 : UInt32).toNat := h.2
  exact ⟨h1, h2⟩

theorem isspace_of_isDigit (c : Char) (h : c.isDigit = true) : isspace c = false := by
  have hb := isDigit_bounds c h
  by_contra hc
  simp only [isspace, Bool.not_eq_false, Bool.or_eq_true, decide_eq_true_eq] at hc
  rcases hc with ((((rfl | rfl) | rfl) | rfl) | rfl) | rfl <;> revert hb <;> decide

theorem stoi_numeral (ds : List Char) (h : is_numeral ds)
    (hint : is_int (numeral_value ds : Int)) :
    stoi ds = .value (numeral_value ds : Int) := by
  obtain ⟨hne, hd⟩ := h
  cases ds with
  | nil => exact absurd rfl hne
  | cons c cs =>
    have hc := hd c (List.mem_cons_self _ _)
    have hb := isDigit_bounds c hc
    have hsp := isspace_of_isDigit c hc
    have hminus : c ≠ '-' := by rintro rfl; revert hb; decide
    have hplus : c ≠ '+' := by rintro rfl; revert hb; decide
    have htw := takeWhile_all Char.isDigit (c :: cs) hd
    unfold stoi
    simp only [List.dropWhile_cons, hsp]
    have hmatch : (match (c :: cs : List Char) with
        | '-' :: r => (true, r)
        | '+' :: r => (false, r)
        | _ => (false, c :: cs)) = (false, c :: cs) := by
      split
      · next r heq => simp only [List.cons.injEq] at heq; exact absurd heq.1 hminus
      · next r heq => simp only [List.cons.injEq] at heq; exact absurd heq.1 hplus
      · rfl
    simp only [Bool.false_eq_true, if_false] at hmatch ⊢
    rw [hmatch]
    simp only [htw, foldl_digits, zero_mul, zero_add]
    unfold is_int at hint
    simp [hint]

theorem stoi_minus_numeral (ds : List Char) (h : is_numeral ds)
    (hint : is_int (-(numeral_value ds : Int))) :
    stoi ('-' :: ds) = .value (-(numeral_value ds : Int)) := by
  obtain ⟨hne, hd⟩ := h
  have htw := takeWhile_all Char.isDigit ds hd
  have hsp : isspace '-' = false := by decide
  unfold stoi
  simp only [List.dropWhile_cons, hsp]
  simp only [Bool.false_eq_true, if_false, htw, foldl_digits, zero_mul, zero_add, if_true]
  unfold is_int at hint
  simp [hne, hint]

theorem stoi_of_decimal (s : List Char) (n : Int) (h : is_decimal_of s n) (hint : is_int n) :
    stoi s = .value n := by
  rcases h with ⟨hnum, rfl⟩ | ⟨hhead, hnum, rfl⟩
  · exact stoi_numeral s hnum hint
  · cases s with
    | nil => cases hhead
    | cons c cs =>
      simp only [List.head?_cons, Option.some.injEq] at hhead
      subst hhead
      exact stoi_minus_numeral cs hnum hint

theorem decimal_ne_nil (s : List Char) (n : Int) (h : is_decimal_of s n) : s ≠ [] := by
  rcases h with ⟨hnum, _⟩ | ⟨hhead, _, _⟩
  · exact hnum.1
  · rintro rfl
    cases hhead

theorem stoi_nil : stoi [] = .faulted .invalid_argument := by decide

theorem status_code_mem (s : status) : s.code ∈ [200, 400, 401, 404, 500] := by
  cases s <;> decide

theorem mime_type_value_cases (path m : List Char) (h : mime_type path = .value m) :
    m = "bad".toList ∨ m = mime_lookup (mime_type_ext path) := by
  unfold mime_type at h
  simp only at h
  split_ifs at h
  · split at h
    · cases h
    · split_ifs at h
      · cases h; exact Or.inl rfl
      · cases h; exact Or.inr rfl
  · cases h; exact Or.inr rfl

theorem stoi_value_ne_nil (s : List Char) (n : Int) (h : stoi s = .value n) : s ≠ [] := by
  rintro rfl
  rw [stoi_nil] at h
  cases h

theorem toLower_eq_dot (c : Char) : c.toLower = '.' ↔ c = '.' := by
  unfold Char.toLower
  simp only
  split_ifs with h
  · have hc : c = Char.ofNat c.toNat := (Char.ofNat_toNat c).symm
    obtain ⟨h1, h2⟩ := h
    generalize c.toNat = n at hc h1 h2 ⊢
    subst hc
    interval_cases n <;> decide
  · rfl

theorem rfind_none_of_not_mem (s : List Char) (c : Char) (h : c ∉ s) : rfind s c = none := by
  induction s with
  | nil => rfl
  | cons x xs ih =>
    have hx : x ≠ c := fun e => h (e ▸ List.mem_cons_self _ _)
    have hxs : c ∉ xs := fun e => h (List.mem_cons_of_mem _ e)
    simp [rfind, ih hxs, hx]

theorem rfind_append (stem rest : List Char) (c : Char) (h : c ∉ rest) :
    rfind (stem ++ c :: rest) c = some stem.length := by
  induction stem with
  | nil => simp [rfind, rfind_none_of_not_mem rest c h]
  | cons x xs ih => simp [rfind, ih]

theorem rfind_get (s : List Char) (c : Char) (p : Nat) (h : rfind s c = some p) :
    s.get? p = some c := by
  induction s generalizing p with
  | nil => simp [rfind] at h
  | cons x xs ih =>
    unfold rfind at h
    cases hr : rfind xs c with
    | some q =>
      rw [hr] at h
      simp only [Option.some.injEq] at h
      subst h
      simpa using ih q hr
    | none =>
      rw [hr] at h
      simp only at h
      split_ifs at h with hx
      simp only [Option.some.injEq] at h
      subst h
      simp [hx]

theorem mime_lookup_nil : mime_lookup [] = "bad".toList := by decide

theorem mime_table_values : ∀ e ∈ mime_table, e.2 ≠ "bad".toList := by decide

theorem mime_table_keys : ∀ e ∈ mime_table, e.1.head? = some '.' ∧ '.' ∉ e.1.tail := by
  decide

theorem mime_lookup_of_iequals (ext : List Char) (e : List Char × List Char)
    (he : e ∈ mime_table) (hie : iequals ext e.1 = true) :
    mime_lookup ext ≠ "bad".toList := by
  unfold mime_lookup
  cases hf : mime_table.find? (fun e => iequals ext e.1) with
  | none =>
    rw [List.find?_eq_none] at hf
    exact absurd hie (hf e he)
  | some e2 => exact mime_table_values e2 (List.mem_of_find?_eq_some hf)

theorem dot_shape_of_iequals (ext key : List Char) (hie : iequals ext key = true)
    (hk : key.head? = some '.' ∧ '.' ∉ key.tail) :
    ∃ rest, ext = '.' :: rest ∧ '.' ∉ rest := by
  simp only [iequals, beq_iff_eq] at hie
  cases key with
  | nil => simp at hk
  | cons k ks =>
    simp only [List.head?_cons, Option.some.injEq, List.tail_cons] at hk
    obtain ⟨rfl, hks⟩ := hk
    cases ext with
    | nil => simp at hie
    | cons c rest =>
      simp only [List.map_cons, List.cons.injEq] at hie
      obtain ⟨hc, hrest⟩ := hie
      have hdot : Char.toLower '.' = '.' := by decide
      rw [hdot, toLower_eq_dot] at hc
      subst hc
      refine ⟨rest, rfl, fun hmem => ?_⟩
      have h1 : Char.toLower '.' ∈ rest.map Char.toLower := List.mem_map_of_mem _ hmem
      rw [hdot, hrest, List.mem_map] at h1
      obtain ⟨x, hx, hx2⟩ := h1
      rw [toLower_eq_dot] at hx2
      exact hks (hx2 ▸ hx)

theorem mime_type_of_ne_bad (path m : List Char) (h : mime_type path = .value m)
    (hm : m ≠ "bad".toList) :
    ∃ p, rfind path '.' = some p ∧ m = mime_lookup (path.drop p) ∧
      (6 < p → path.get? (p - 1) ≠ some '/') := by
  cases hr : rfind path '.' with
  | none =>
    exfalso
    rcases mime_type_value_cases path m h with h1 | h1
    · exact hm h1
    · rw [h1] at hm
      simp only [mime_type_ext, hr] at hm
      exact hm mime_lookup_nil
  | some p =>
    refine ⟨p, rfl, ?_, ?_⟩
    · rcases mime_type_value_cases path m h with h1 | h1
      · exact absurd h1 hm
      · simpa [mime_type_ext, hr] using h1
    · intro h6 hget
      unfold mime_type at h
      simp only [hr, size_t_of, h6, if_true, hget] at h
      cases h
      exact hm rfl

theorem dot_after_image (target : List Char) (p : Nat)
    (hs : starts_with target "/image/".toList = true) (hr : rfind target '.' = some p) :
    6 < p := by
  by_contra hp
  have hget := rfind_get target '.' p hr
  rw [starts_with_iff] at hs
  obtain ⟨u, rfl⟩ := hs
  have hlt : p < ("/image/".toList).length := by
    have : ("/image/".toList).length = 7 := rfl
    omega
  rw [List.get?_eq_getElem?, List.getElem?_append_left hlt] at hget
  have hall : ∀ q : Nat, ("/image/".toList)[q]? ≠ some '.' := by
    intro q
    have h7 : ∀ k : Nat, k < 7 → ("/image/".toList)[k]? ≠ some '.' := by decide
    by_cases hq : q < 7
    · exact h7 q hq
    · have : ("/image/".toList)[q]? = none := by
        apply List.getElem?_eq_none
        have : ("/image/".toList).length = 7 := rfl
        omega
      rw [this]
      simp
  exact hall p hget

theorem mime_type_of_shape (stem ext : List Char)
    (h7 : 6 < stem.length) (hlast : (stem ++ ext).get? (stem.length - 1) ≠ some '/')
    (hext : ∃ rest, ext = '.' :: rest ∧ '.' ∉ rest) :
    mime_type (stem ++ ext) = .value (mime_lookup ext) := by
  obtain ⟨rest, rfl, hrest⟩ := hext
  have hr := rfind_append stem rest '.' hrest
  unfold mime_type mime_type_ext
  simp only [hr, size_t_of, h7, if_true, List.drop_left]
  cases hl : (stem ++ '.' :: rest).get? (stem.length - 1) with
  | none =>
    exfalso
    rw [List.get?_eq_none] at hl
    simp only [List.length_append, List.length_cons] at hl
    omega
  | some c =>
    have hc : c ≠ '/' := fun e => hlast (by rw [hl, e])
    simp [hc]

theorem iequals_length (a b : List Char) (h : iequals a b = true) : a.length = b.length := by
  simp only [iequals, beq_iff_eq] at h
  simpa using congrArg List.length h

theorem ends_in_of_drop (path e : List Char) (p : Nat) (hp : p < path.length)
    (h : iequals (path.drop p) e = true) : ends_in path e = true := by
  have hlen := iequals_length _ _ h
  rw [List.length_drop] at hlen
  have hk : path.length - e.length = p := by omega
  unfold ends_in
  rw [hk]
  exact h

theorem ends_in_of_lookup (path : List Char) (p : Nat) (hp : p < path.length)
    (hm : mime_lookup (path.drop p) ≠ "bad".toList) : ends_in_table_extension path := by
  obtain ⟨e, he, hie⟩ := mime_lookup_ne_bad _ hm
  exact ⟨e, he, ends_in_of_drop path e.1 p hp hie⟩

/-- The target test of `handle_request` accepts exactly the valid targets
whose file has a name. -/
theorem target_accepted_iff (target : List Char) :
    target_accepted target ↔ valid_target target ∧ has_file_name target := by
  constructor
  · rintro ⟨m, hm, hi⟩
    obtain ⟨_, hbad, hs, hf⟩ := (illegal_target_eq_false target m).mp hi
    obtain ⟨p, hr, hlook, hguard⟩ := mime_type_of_ne_bad target m hm hbad
    have h6 := dot_after_image target p hs hr
    have hlt := rfind_lt target '.' p hr
    refine ⟨⟨(starts_with_iff _ _).mp hs, ?_, ?_⟩, ?_⟩
    · rw [← find_isSome_iff, hf]
      simp
    · rw [hlook] at hbad
      exact ends_in_of_lookup target p hlt hbad
    · unfold has_file_name
      rw [hr]
      exact hguard h6
  · rintro ⟨⟨hpre, hno, e, he, hend⟩, hname⟩
    have hs := (starts_with_iff _ _).mpr hpre
    unfold ends_in at hend
    obtain ⟨rest, hext, hrest⟩ := dot_shape_of_iequals _ e.1 hend (mime_table_keys e he)
    have hsplit : target = target.take (target.length - e.1.length) ++ '.' :: rest := by
      rw [← hext, List.take_append_drop]
    rw [hext] at hend
    clear hext
    generalize target.take (target.length - e.1.length) = stem at hsplit
    subst hsplit
    have hr := rfind_append stem rest '.' hrest
    have h6 := dot_after_image _ _ hs hr
    unfold has_file_name at hname
    rw [hr] at hname
    have hm := mime_type_of_shape stem ('.' :: rest) h6 hname ⟨rest, rfl, hrest⟩
    refine ⟨_, hm, (illegal_target_eq_false _ _).mpr ⟨?_, ?_, hs, ?_⟩⟩
    · simp
    · exact mime_lookup_of_iequals _ e he hend
    · cases hfd : find (stem ++ '.' :: rest) "..".toList with
      | none => rfl
      | some q =>
        exfalso
        apply hno
        rw [← find_isSome_iff, hfd]
        rfl

end string_lemmas

section session_lemmas

variable (env : environment) (doc_root : List Char) (intervalSetofSecret : interval_set)

theorem session_run_closed (cs : List completion) :
    session_run env doc_root intervalSetofSecret .closed cs = [] := by
  induction cs with
  | nil => rfl
  | cons c cs ih =>
    cases c <;> simpa [session_run, session_step] using ih

theorem session_run_failed (cs : List completion) :
    session_run env doc_root intervalSetofSecret .failed cs = [] := by
  induction cs with
  | nil => rfl
  | cons c cs ih =>
    cases c <;> simpa [session_run, session_step] using ih

end session_lemmas

/-! ## The claims -/

/-- C1: for every list of `int` pairs `(lo, hi)` loaded by `readIdIntervals`
into the initially empty set and every integer `n`, the membership test
`intervalSetofSecret.find(n) != end()` holds exactly when `lo ≤ n ≤ hi` for at
least one loaded pair, with no condition on order, overlap, adjacency or
degeneracy of the pairs. -/
theorem readIdIntervals_membership (pairs : List (Int × Int)) (n : Int)
    (h : ∀ p ∈ pairs, is_int p.1 ∧ is_int p.2) :
    policy_contains (readIdIntervals [] pairs) n = true ↔
      ∃ p ∈ pairs, p.1 ≤ n ∧ n ≤ p.2 := by
  rw [policy_contains_iff,
    (readIdIntervals_contains pairs [] n (by simp) h).2]
  simp

/-- The membership equivalence at the policy file `5 10`, `15 20` and the
secret 18. -/
theorem readIdIntervals_membership_witness :
    (∀ p ∈ [((5 : Int), (10 : Int)), (15, 20)], is_int p.1 ∧ is_int p.2) ∧
    (policy_contains (readIdIntervals [] [(5, 10), (15, 20)]) 18 = true ↔
      ∃ p ∈ [((5 : Int), (10 : Int)), (15, 20)], p.1 ≤ 18 ∧ 18 ≤ p.2) :=
  ⟨by decide, readIdIntervals_membership [(5, 10), (15, 20)] 18 (by decide)⟩

/-- The policy file `5 10`, `15 20` admits 5, 7, 10, 15, 18, 20 and rejects
4, 11, 14, 21. -/
theorem readIdIntervals_example :
    List.map (policy_contains (readIdIntervals [] [(5, 10), (15, 20)]))
        [5, 7, 10, 15, 18, 20, 4, 11, 14, 21]
      = [true, true, true, true, true, true, false, false, false, false] := by
  decide

/-- C2: every request whose method is not GET gets the 400 Bad Request
response "Unknown HTTP-method", whatever its target and its secret header,
and nothing else happens. -/
theorem non_get_is_bad_request (env : environment) (doc_root : List Char)
    (intervalSetofSecret : interval_set) (req : request) (h : req.method ≠ verb.get) :
    handle_request env doc_root intervalSetofSecret req =
      ⟨[], .value (bad_request env req "Unknown HTTP-method".toList)⟩ ∧
    (bad_request env req "Unknown HTTP-method".toList).result.code = 400 :=
  ⟨handle_request_of_method env doc_root intervalSetofSecret req h, rfl⟩

/-- C2 at a POST of an existing image with a secret of the policy. -/
theorem non_get_is_bad_request_witness :
    (example_request .post "/image/photo.png" "7").method ≠ verb.get ∧
    (handle_request example_environment example_root example_policy
        (example_request .post "/image/photo.png" "7")).result =
      .value (bad_request example_environment (example_request .post "/image/photo.png" "7")
        "Unknown HTTP-method".toList) :=
  ⟨by decide,
    congrArg outcome.result (non_get_is_bad_request example_environment example_root
      example_policy (example_request .post "/image/photo.png" "7") (by decide)).1⟩

/-- C4, the code at `GET /image/photo.png` with `secret: abc`: the target is
valid, the secret is not empty, `std::stoi` throws `std::invalid_argument`,
which leaves `handle_request`; no 400 response is made. -/
theorem non_numeric_secret_faults :
    valid_target "/image/photo.png".toList ∧
    (example_request .get "/image/photo.png" "abc").at "secret".toList = "abc".toList ∧
    handle_request example_environment example_root example_policy
        (example_request .get "/image/photo.png" "abc") =
      ⟨[], .faulted .invalid_argument⟩ := by
  decide

/-- C7: whenever `handle_request` produces a response, on any of its
statuses 200, 400, 401, 404 and 500, the keep-alive flag of the response is
the keep-alive flag of the request. -/
theorem response_keep_alive (env : environment) (doc_root : List Char)
    (intervalSetofSecret : interval_set) (req : request) (res : response)
    (h : (handle_request env doc_root intervalSetofSecret req).result = .value res) :
    res.keep_alive = req.keep_alive ∧ res.result.code ∈ [200, 400, 401, 404, 500] := by
  by_cases hget : req.method = verb.get
  swap
  · rw [handle_request_of_method env doc_root intervalSetofSecret req hget] at h
    cases h
    exact ⟨rfl, status_code_mem _⟩
  cases hm : mime_type req.target with
  | faulted f =>
    rw [handle_request_of_mime_fault env doc_root intervalSetofSecret req f hget hm] at h
    cases h
  | value m =>
    cases hi : illegal_target req.target m with
    | true =>
      rw [handle_request_of_illegal env doc_root intervalSetofSecret req m hget hm hi] at h
      cases h
      exact ⟨rfl, status_code_mem _⟩
    | false =>
      by_cases hs : req.at "secret".toList = []
      · rw [handle_request_of_no_secret env doc_root intervalSetofSecret req m hget hm hi hs] at h
        cases h
        exact ⟨rfl, status_code_mem _⟩
      · cases hn : stoi (req.at "secret".toList) with
        | faulted f =>
          rw [handle_request_of_stoi_fault env doc_root intervalSetofSecret req m f hget hm hi
            hs hn] at h
          cases h
        | value n =>
          cases hp : policy_contains intervalSetofSecret n with
          | false =>
            rw [handle_request_of_unauthorized env doc_root intervalSetofSecret req m n hget hm
              hi hs hn hp] at h
            cases h
            exact ⟨rfl, status_code_mem _⟩
          | true =>
            rw [handle_request_of_authorized env doc_root intervalSetofSecret req m n hget hm
              hi hs hn hp] at h
            simp only at h
            split_ifs at h <;> cases h <;> exact ⟨rfl, status_code_mem _⟩

/-- C7 at an unauthorized keep-alive request: the 401 response keeps the
connection alive. -/
theorem response_keep_alive_witness :
    (handle_request example_environment example_root example_policy
        (example_request .get "/image/photo.png" "999")).result =
      .value (unauthorized example_environment (example_request .get "/image/photo.png" "999")
        "/image/photo.png".toList) ∧
    (unauthorized example_environment (example_request .get "/image/photo.png" "999")
        "/image/photo.png".toList).keep_alive = true :=
  ⟨by decide,
    (response_keep_alive example_environment example_root example_policy
      (example_request .get "/image/photo.png" "999") _ (by decide)).1⟩

/-- C6 as stated fails at `GET /image/.png` with `secret: 7`: the target
begins with `/image/`, has no `..` and ends in `.png`, the secret is in the
policy, and yet the response is the 400 "Illegal request-target" and no file
is opened, because `mime_type` answers "bad" for an image without name. -/
theorem nameless_image_rejected :
    valid_target "/image/.png".toList ∧
    stoi ((example_request .get "/image/.png" "7").at "secret".toList) = .value 7 ∧
    policy_contains example_policy 7 = true ∧
    handle_request example_environment example_root example_policy
        (example_request .get "/image/.png" "7") =
      ⟨[], .value (bad_request example_environment (example_request .get "/image/.png" "7")
        "Illegal request-target".toList)⟩ := by
  decide

/-- C6, amended: for a GET request with a valid target whose file has a
name and a secret that `std::stoi` reads as a member `n` of the policy,
`handle_request` opens the file at `path_cat(doc_root, target)` and the
outcome of the open decides the status: 200 on success, 404 on
no-such-file-or-directory, 500 on any other error. The 200 response has the
Content-Type the extension table gives for the target and the size of the
opened file as Content-Length. -/
theorem authorized_status (env : environment) (doc_root : List Char)
    (intervalSetofSecret : interval_set) (req : request) (n : Int)
    (hget : req.method = verb.get) (hv : valid_target req.target)
    (hname : has_file_name req.target)
    (hn : stoi (req.at "secret".toList) = .value n)
    (hp : policy_contains intervalSetofSecret n = true) :
    ∃ res, handle_request env doc_root intervalSetofSecret req =
        ⟨[.policy_find n, .file_open (path_cat doc_root req.target)], .value res⟩ ∧
      match (env.file_open (path_cat doc_root req.target)).ec with
      | .success =>
        res.result.code = 200 ∧
        res.content_type = mime_lookup (mime_type_ext req.target) ∧
        mime_type req.target = .value res.content_type ∧
        res.content_length = (env.file_open (path_cat doc_root req.target)).size ∧
        res.body = .file (path_cat doc_root req.target)
          (env.file_open (path_cat doc_root req.target)).size
      | .no_such_file_or_directory => res.result.code = 404
      | .other _ => res.result.code = 500 := by
  obtain ⟨m, hm, hi⟩ := (target_accepted_iff req.target).mpr ⟨hv, hname⟩
  have hs := stoi_value_ne_nil _ _ hn
  have hbad : m ≠ "bad".toList := ((illegal_target_eq_false req.target m).mp hi).2.1
  have hlook : m = mime_lookup (mime_type_ext req.target) := by
    rcases mime_type_value_cases req.target m hm with h1 | h1
    · exact absurd h1 hbad
    · exact h1
  rw [handle_request_of_authorized env doc_root intervalSetofSecret req m n hget hm hi hs hn hp]
  cases hec : (env.file_open (path_cat doc_root req.target)).ec with
  | success =>
    refine ⟨_, by simp only [reduceCtorEq, if_false, ne_eq, not_true_eq_false]; rfl, ?_⟩
    subst hlook
    exact ⟨rfl, rfl, hm, rfl, rfl⟩
  | no_such_file_or_directory =>
    exact ⟨not_found env req req.target, by simp only [if_true], rfl⟩
  | other msg =>
    refine ⟨server_error env req msg, ?_, rfl⟩
    simp only [reduceCtorEq, if_false, ne_eq, not_false_eq_true, if_true, error_code.message]

/-- C6, amended, at `GET /image/photo.png` with `secret: 7`: status 200,
Content-Type `image/png`, Content-Length 1024, the size of the opened file. -/
theorem authorized_status_witness :
    (valid_target "/image/photo.png".toList ∧ has_file_name "/image/photo.png".toList) ∧
    ∃ res, handle_request example_environment example_root example_policy
        (example_request .get "/image/photo.png" "7") =
          ⟨[.policy_find 7, .file_open "/srv/images/image/photo.png".toList], .value res⟩ ∧
      res.result.code = 200 ∧ res.content_type = "image/png".toList ∧
      res.content_length = 1024 := by
  obtain ⟨res, h1, h2⟩ := authorized_status example_environment example_root example_policy
    (example_request .get "/image/photo.png" "7") 7 rfl (by decide) (by decide) (by decide)
    (by decide)
  have hec : (example_environment.file_open
      (path_cat example_root (example_request .get "/image/photo.png" "7").target)).ec
        = .success := by decide
  rw [hec] at h2
  have hpath : path_cat example_root (example_request .get "/image/photo.png" "7").target
      = "/srv/images/image/photo.png".toList := by decide
  have hmime : mime_lookup (mime_type_ext (example_request .get "/image/photo.png" "7").target)
      = "image/png".toList := by decide
  have hsize : (example_environment.file_open
      (path_cat example_root (example_request .get "/image/photo.png" "7").target)).size
        = 1024 := by decide
  rw [hpath] at h1
  exact ⟨by decide, res, h1, h2.1, h2.2.1.trans hmime, h2.2.2.2.1.trans hsize⟩

/-- C5 as stated fails at two requests against the policy `5 10`, `15 20`.
At `GET /image/photo.png` with `secret: 2147483648`, the decimal
representation of an integer outside every interval, the integer is no `int`:
`std::stoi` throws `std::out_of_range` and no 401 response is made. At
`GET /image/.png` with `secret: 999` the target is valid in the words of the
claim, and the response is the 400 for an image without name. -/
theorem unauthorized_fails_outside_int_and_without_name :
    (is_decimal_of ((example_request .get "/image/photo.png" "2147483648").at "secret".toList)
        2147483648 ∧
      valid_target "/image/photo.png".toList ∧
      (∀ p ∈ [((5 : Int), (10 : Int)), (15, 20)], ¬(p.1 ≤ 2147483648 ∧ 2147483648 ≤ p.2)) ∧
      handle_request example_environment example_root (readIdIntervals [] [(5, 10), (15, 20)])
          (example_request .get "/image/photo.png" "2147483648") =
        ⟨[], .faulted .out_of_range⟩) ∧
    (is_decimal_of ((example_request .get "/image/.png" "999").at "secret".toList) 999 ∧
      valid_target "/image/.png".toList ∧
      (∀ p ∈ [((5 : Int), (10 : Int)), (15, 20)], ¬(p.1 ≤ 999 ∧ 999 ≤ p.2)) ∧
      handle_request example_environment example_root (readIdIntervals [] [(5, 10), (15, 20)])
          (example_request .get "/image/.png" "999") =
        ⟨[], .value (bad_request example_environment (example_request .get "/image/.png" "999")
          "Illegal request-target".toList)⟩) := by
  decide

/-- C5, amended: for a GET request with a valid target whose file has a
name and whose secret header is a base-10 representation of an `int` value
`n` that lies in none of the loaded closed intervals, `handle_request`
consults the policy, opens no file and returns the 401 response whose body
names the request target. -/
theorem unauthorized_outside_policy (env : environment) (doc_root : List Char)
    (pairs : List (Int × Int)) (req : request) (n : Int)
    (hget : req.method = verb.get) (hv : valid_target req.target)
    (hname : has_file_name req.target)
    (hs : is_decimal_of (req.at "secret".toList) n) (hint : is_int n)
    (hpairs : ∀ p ∈ pairs, is_int p.1 ∧ is_int p.2)
    (hout : ∀ p ∈ pairs, ¬(p.1 ≤ n ∧ n ≤ p.2)) :
    handle_request env doc_root (readIdIntervals [] pairs) req =
      ⟨[.policy_find n], .value (unauthorized env req req.target)⟩ ∧
    (unauthorized env req req.target).result.code = 401 ∧
    (unauthorized env req req.target).body =
      .string ("Unauthorized access attempt to '".toList ++ req.target ++ "' !!!".toList) := by
  obtain ⟨m, hm, hi⟩ := (target_accepted_iff req.target).mpr ⟨hv, hname⟩
  have hn := stoi_of_decimal _ n hs hint
  have hne := decimal_ne_nil _ n hs
  have hp : policy_contains (readIdIntervals [] pairs) n = false := by
    rw [Bool.eq_false_iff]
    intro hc
    rw [policy_contains_iff, (readIdIntervals_contains pairs [] n (by simp) hpairs).2] at hc
    rcases hc with ⟨y, hy, _⟩ | ⟨q, hq, hq2⟩
    · simp at hy
    · exact hout q hq hq2
  exact ⟨handle_request_of_unauthorized env doc_root _ req m n hget hm hi hne hn hp, rfl, rfl⟩

/-- C5, amended, at `GET /image/photo.png` with `secret: 999` and the policy
`5 10`, `15 20`. -/
theorem unauthorized_outside_policy_witness :
    handle_request example_environment example_root (readIdIntervals [] [(5, 10), (15, 20)])
        (example_request .get "/image/photo.png" "999") =
      ⟨[.policy_find 999], .value (unauthorized example_environment
        (example_request .get "/image/photo.png" "999") "/image/photo.png".toList)⟩ :=
  (unauthorized_outside_policy example_environment example_root [(5, 10), (15, 20)]
    (example_request .get "/image/photo.png" "999") 999 rfl
    (by decide) (by decide) (by decide) (by decide) (by decide) (by decide)).1

/-- C3, the code at `GET /` with `secret: 7`: the target does not begin with
`/image/` and has no dot, `mime_type` reads `path[npos - 1]` outside the
one-character target before any check of the target, and no 400 response is
made. -/
theorem dotless_target_faults :
    ¬("/image/".toList <+: "/".toList) ∧
    handle_request example_environment example_root example_policy
        (example_request .get "/" "7") =
      ⟨[], .faulted (.out_of_bounds 18446744073709551614 1)⟩ := by
  decide

/-- C9 as stated fails at two GET requests without a secret header. At
`/image/.png` the target is valid in the words of the claim and the response
is "Illegal request-target", not "Secret value not provided!!!". At
`/image/photo` the target is not valid, and no "Illegal request-target"
response is made, because `mime_type` reads outside the target first. -/
theorem order_fails_without_name_and_without_dot :
    (valid_target "/image/.png".toList ∧
      (example_request_no_secret .get "/image/.png").at "secret".toList = [] ∧
      handle_request example_environment example_root example_policy
          (example_request_no_secret .get "/image/.png") =
        ⟨[], .value (bad_request example_environment
          (example_request_no_secret .get "/image/.png") "Illegal request-target".toList)⟩) ∧
    (¬valid_target "/image/photo".toList ∧
      (example_request_no_secret .get "/image/photo").at "secret".toList = [] ∧
      handle_request example_environment example_root example_policy
          (example_request_no_secret .get "/image/photo") =
        ⟨[], .faulted (.out_of_bounds 18446744073709551614 12)⟩) := by
  decide

/-- C9, amended: `handle_request` applies its checks in the order method,
target shape, secret presence, authorization, and the first failing check
alone decides the response. A request that is not a GET gets "Unknown
HTTP-method". A GET request whose target contains a dot and is not valid or
names no file gets "Illegal request-target", whatever its secret header is. A
GET request with a valid target whose file has a name and with an absent or
empty secret header gets "Secret value not provided!!!". In all three cases
the policy is not consulted and no file is opened. -/
theorem checks_in_order (env : environment) (doc_root : List Char)
    (intervalSetofSecret : interval_set) (req : request) :
    (req.method ≠ verb.get →
      handle_request env doc_root intervalSetofSecret req =
        ⟨[], .value (bad_request env req "Unknown HTTP-method".toList)⟩) ∧
    (req.method = verb.get → (rfind req.target '.').isSome = true →
      ¬(valid_target req.target ∧ has_file_name req.target) →
      handle_request env doc_root intervalSetofSecret req =
        ⟨[], .value (bad_request env req "Illegal request-target".toList)⟩) ∧
    (req.method = verb.get → valid_target req.target → has_file_name req.target →
      req.at "secret".toList = [] →
      handle_request env doc_root intervalSetofSecret req =
        ⟨[], .value (bad_request env req "Secret value not provided!!!".toList)⟩) := by
  refine ⟨fun h => handle_request_of_method env doc_root intervalSetofSecret req h,
    fun hget hdot hnot => ?_, fun hget hv hname hs => ?_⟩
  · obtain ⟨m, hm⟩ := mime_type_no_fault_of_dot req.target hdot
    cases hi : illegal_target req.target m with
    | true => exact handle_request_of_illegal env doc_root intervalSetofSecret req m hget hm hi
    | false => exact absurd ((target_accepted_iff req.target).mp ⟨m, hm, hi⟩) hnot
  · obtain ⟨m, hm, hi⟩ := (target_accepted_iff req.target).mpr ⟨hv, hname⟩
    exact handle_request_of_no_secret env doc_root intervalSetofSecret req m hget hm hi hs

/-- C9, amended, at two GET requests without a secret header: the target
`/image/photo.txt` gets "Illegal request-target", the target
`/image/photo.png` gets "Secret value not provided!!!". -/
theorem checks_in_order_witness :
    handle_request example_environment example_root example_policy
        (example_request_no_secret .get "/image/photo.txt") =
      ⟨[], .value (bad_request example_environment
        (example_request_no_secret .get "/image/photo.txt") "Illegal request-target".toList)⟩ ∧
    handle_request example_environment example_root example_policy
        (example_request_no_secret .get "/image/photo.png") =
      ⟨[], .value (bad_request example_environment
        (example_request_no_secret .get "/image/photo.png")
        "Secret value not provided!!!".toList)⟩ :=
  ⟨(checks_in_order example_environment example_root example_policy
      (example_request_no_secret .get "/image/photo.txt")).2.1 rfl (by decide) (by decide),
    (checks_in_order example_environment example_root example_policy
      (example_request_no_secret .get "/image/photo.png")).2.2 rfl (by decide) (by decide)
      (by decide)⟩

/-- C10, the code at the targets `/image/foo` and the empty string: `rfind`
yields `npos`, the guard `pos > 6` holds and `path[pos - 1]` is read at index
`npos - 1`, which is not below the size of the target. `handle_request`
reaches that read for the empty target, before its own emptiness test. -/
theorem mime_type_reads_outside :
    mime_type "/image/foo".toList = .faulted (.out_of_bounds (npos - 1) 10) ∧
    ¬(npos - 1 < "/image/foo".toList.length) ∧
    mime_type [] = .faulted (.out_of_bounds (npos - 1) 0) ∧
    handle_request example_environment example_root example_policy
        (example_request .get "" "7") =
      ⟨[], .faulted (.out_of_bounds (npos - 1) 0)⟩ := by
  decide

/-- C8: in the session state machine a successful read hands the response
of `handle_request` to `send_response`, and a write that completes without
error is followed by a new read exactly when the keep-alive flag of the
written response is set. With the flag set the session goes through
`do_read`; with the flag clear it goes through `do_close` and performs no
further action, hence no read, whatever completes later. A write error, a
read error and a closed stream likewise lead to `fail` or `do_close` with no
further read. -/
theorem session_reads_again_iff_keep_alive (env : environment) (doc_root : List Char)
    (intervalSetofSecret : interval_set) :
    (∀ (req : request) (msg : response),
      (handle_request env doc_root intervalSetofSecret req).result = .value msg →
      session_step env doc_root intervalSetofSecret .reading (.read .success req) =
        (.writing msg.keep_alive, [.async_write msg])) ∧
    (∀ (msg : response) (cs : List completion),
      (action.async_read ∈ session_run env doc_root intervalSetofSecret
          (send_response msg).1 (.write .success :: cs) ↔ msg.keep_alive = true)) ∧
    (∀ (msg : response), msg.keep_alive = true →
      on_write msg.keep_alive .success = do_read ∧
      ∀ cs, session_run env doc_root intervalSetofSecret
          (send_response msg).1 (.write .success :: cs) =
        action.async_read :: session_run env doc_root intervalSetofSecret .reading cs) ∧
    (∀ (msg : response), msg.keep_alive = false →
      on_write msg.keep_alive .success = do_close ∧
      ∀ cs, session_run env doc_root intervalSetofSecret
          (send_response msg).1 (.write .success :: cs) = [action.shutdown_send]) ∧
    (∀ (msg : response) (ec : io_status) (cs : List completion), ec ≠ .success →
      session_run env doc_root intervalSetofSecret
          (send_response msg).1 (.write ec :: cs) = [action.fail "write".toList]) ∧
    (∀ (message : List Char) (req : request) (cs : List completion),
      session_run env doc_root intervalSetofSecret .reading (.read (.error message) req :: cs) =
        [action.fail "read".toList]) ∧
    (∀ (req : request) (cs : List completion),
      session_run env doc_root intervalSetofSecret .reading (.read .end_of_stream req :: cs) =
        [action.shutdown_send]) := by
  have hclosed := session_run_closed env doc_root intervalSetofSecret
  have hfailed := session_run_failed env doc_root intervalSetofSecret
  refine ⟨?_, ?_, ?_, ?_, ?_, ?_, ?_⟩
  · intro req msg h
    simp [session_step, on_read, h, send_response]
  · intro msg cs
    cases hk : msg.keep_alive
    · simp [send_response, session_run, session_step, on_write, do_close, hk, hclosed]
    · simp [send_response, session_run, session_step, on_write, do_read, hk]
  · intro msg hk
    refine ⟨by simp [on_write, hk], fun cs => ?_⟩
    simp [send_response, session_run, session_step, on_write, do_read, hk]
  · intro msg hk
    refine ⟨by simp [on_write, hk], fun cs => ?_⟩
    simp [send_response, session_run, session_step, on_write, do_close, hk, hclosed]
  · intro msg ec cs hec
    simp [send_response, session_run, session_step, on_write, hec, hfailed]
  · intro message req cs
    simp [session_run, session_step, on_read, hfailed]
  · intro req cs
    simp [session_run, session_step, on_read, do_close, hclosed]

/-! ## What holds beside the faults -/

/-- For a GET request whose target contains a dot, so that `mime_type` stays
inside the target: if the target does not begin with `/image/`, or contains
`..`, or does not end in an extension of the MIME table, the response is the
400 "Illegal request-target", whatever the secret header is, and neither the
policy is consulted nor a file opened. -/
theorem dotted_illegal_target_rejected (env : environment) (doc_root : List Char)
    (intervalSetofSecret : interval_set) (req : request)
    (hget : req.method = verb.get) (hdot : (rfind req.target '.').isSome = true)
    (h : ¬("/image/".toList <+: req.target) ∨
      "..".toList <:+: req.target ∨ ¬ends_in_table_extension req.target) :
    handle_request env doc_root intervalSetofSecret req =
      ⟨[], .value (bad_request env req "Illegal request-target".toList)⟩ := by
  obtain ⟨m, hm⟩ := mime_type_no_fault_of_dot req.target hdot
  cases hi : illegal_target req.target m with
  | true => exact handle_request_of_illegal env doc_root intervalSetofSecret req m hget hm hi
  | false =>
    obtain ⟨⟨h1, h2, h3⟩, _⟩ := (target_accepted_iff req.target).mp ⟨m, hm, hi⟩
    rcases h with h | h | h
    · exact absurd h1 h
    · exact absurd h h2
    · exact absurd h3 h

/-- A target of a size below `npos` makes `mime_type` read outside of it
exactly when it contains no dot. -/
theorem mime_type_faults_iff (path : List Char) (hlen : path.length < npos) :
    (∃ f, mime_type path = .faulted f) ↔ rfind path '.' = none := by
  constructor
  · rintro ⟨f, hf⟩
    cases hr : rfind path '.' with
    | none => rfl
    | some p =>
      rcases mime_type_of_dot path p hr with h1 | h1 <;> rw [h1] at hf <;> cases hf
  · intro hr
    cases hm : mime_type path with
    | faulted f => exact ⟨f, rfl⟩
    | value m =>
      have := mime_type_dot_of_value path m hm hlen
      rw [hr] at this
      cases this

/-- A GET request with a valid target whose file has a name and with a
non-empty secret header that `std::stoi` rejects ends with the exception, not
with a response. -/
theorem rejected_secret_faults (env : environment) (doc_root : List Char)
    (intervalSetofSecret : interval_set) (req : request) (f : fault)
    (hget : req.method = verb.get) (hv : valid_target req.target)
    (hname : has_file_name req.target)
    (hs : req.at "secret".toList ≠ [])
    (hn : stoi (req.at "secret".toList) = .faulted f) :
    handle_request env doc_root intervalSetofSecret req = ⟨[], .faulted f⟩ := by
  obtain ⟨m, hm, hi⟩ := (target_accepted_iff req.target).mpr ⟨hv, hname⟩
  exact handle_request_of_stoi_fault env doc_root intervalSetofSecret req m f hget hm hi hs hn

/-- C8 at the 401 response to a keep-alive request: after its write the
session reads again. -/
theorem session_reads_again_iff_keep_alive_witness :
    action.async_read ∈ session_run example_environment example_root example_policy
        (send_response (unauthorized example_environment
          (example_request .get "/image/photo.png" "999") "/image/photo.png".toList)).1
        [.write .success] ∧
    (unauthorized example_environment
      (example_request .get "/image/photo.png" "999") "/image/photo.png".toList).keep_alive
        = true :=
  ⟨((session_reads_again_iff_keep_alive example_environment example_root
      example_policy).2.1 _ _).mpr rfl, rfl⟩

/-- The request of the spec for `/image/../../etc/passwd`: the 400 "Illegal
request-target", with no file opened. -/
theorem traversal_target_rejected :
    handle_request example_environment example_root example_policy
        (example_request .get "/image/../../etc/passwd" "7") =
      ⟨[], .value (bad_request example_environment
        (example_request .get "/image/../../etc/passwd" "7")
        "Illegal request-target".toList)⟩ := by
  decide

/-- The status codes of the requests listed in the spec, against the policy
`5 10`, `15 20`: a missing secret 400, secret 999 401, secret 7 and an
existing file 200, a missing file 404, an unreadable file 500, a file without
name 400. -/
theorem spec_examples :
    (handle_request example_environment example_root example_policy
        (example_request_no_secret .get "/image/photo.png")).result =
      .value (bad_request example_environment
        (example_request_no_secret .get "/image/photo.png")
        "Secret value not provided!!!".toList) ∧
    (handle_request example_environment example_root example_policy
        (example_request .get "/image/photo.png" "999")).result =
      .value (unauthorized example_environment
        (example_request .get "/image/photo.png" "999") "/image/photo.png".toList) ∧
    (handle_request example_environment example_root example_policy
        (example_request .get "/image/missing.jpg" "7")).result =
      .value (not_found example_environment
        (example_request .get "/image/missing.jpg" "7") "/image/missing.jpg".toList) ∧
    (handle_request example_environment example_root example_policy
        (example_request .get "/image/locked.png" "7")).result =
      .value (server_error example_environment
        (example_request .get "/image/locked.png" "7") "Permission denied".toList) ∧
    (handle_request example_environment example_root example_policy
        (example_request .get "/image/.png" "7")).result =
      .value (bad_request example_environment
        (example_request .get "/image/.png" "7") "Illegal request-target".toList) := by
  decide

/-- Two sessions of the spec. On a kept-alive connection two GET requests
are both answered and a third read is started, with no shutdown in between.
When the request asks to close, the response is written, the session shuts
the connection down, and a request that arrives later starts nothing. -/
theorem session_examples :
    session_run example_environment example_root example_policy .reading
        [.read .success (example_request .get "/image/photo.png" "7"), .write .success,
          .read .success (example_request .get "/image/missing.jpg" "7"), .write .success] =
      [.async_write
          { result := .ok, version := 11, server := "Boost.Beast".toList,
            content_type := "image/png".toList, content_length := 1024, keep_alive := true,
            body := .file "/srv/images/image/photo.png".toList 1024 },
        .async_read,
        .async_write (not_found example_environment
          (example_request .get "/image/missing.jpg" "7") "/image/missing.jpg".toList),
        .async_read] ∧
    session_run example_environment example_root example_policy .reading
        [.read .success { example_request .get "/image/photo.png" "999" with keep_alive := false },
          .write .success,
          .read .success (example_request .get "/image/photo.png" "7"), .write .success] =
      [.async_write (unauthorized example_environment
          { example_request .get "/image/photo.png" "999" with keep_alive := false }
          "/image/photo.png".toList),
        .shutdown_send] := by
  decide

end HttpServer
